import Mathlib

/-!
Verification of the health-check / inhibitor-lock engine of
`homelab-sidecars`: the mdstat parser (`pkg/raid`), the `Checker`
batch evaluator (`pkg/check`), the inhibitor `Lock` (`pkg/inhibitor`)
and the polling `Runner`.

Text is modelled as `List Char`; the Go regexes are embedded as
explicit character-list matchers with the same match semantics on the
relevant patterns.
-/

namespace Sidecars

/-- Strings of the Go program, modelled as character lists. -/
abbrev Str := List Char

/-- Shorthand to write a Go string literal as a `Str`. -/
def lit (s : String) : Str := s.toList

/-- Go regexp `\s`: space, tab, newline, form feed, carriage return. -/
def isSpaceC (c : Char) : Bool :=
  c == ' ' || c == '\t' || c == '\n' || c == '\x0c' || c == '\r'

/-- Go regexp `\w`: `[0-9A-Za-z_]`. -/
def isWordC (c : Char) : Bool := c.isAlphanum || c == '_'

/-- The slot-marker alphabet `[U_]` of the mdstat status line. -/
def isSlotC (c : Char) : Bool := c == 'U' || c == '_'

/-- The `[\d.]` character class of the recovery-progress token. -/
def isNumDotC (c : Char) : Bool := c.isDigit || c == '.'

/-- Strip a literal pattern from the front of a string; `none` when the
string does not start with the pattern. -/
def stripLit : Str → Str → Option Str
  | [], s => some s
  | _ :: _, [] => none
  | p :: ps, c :: cs => if c = p then stripLit ps cs else none

/-- Try an anchored matcher at every position of the string, leftmost
match first (the search semantics of Go's `FindStringSubmatch` for an
unanchored pattern). -/
def scanFor {α : Type} (f : Str → Option α) : Str → Option α
  | [] => f []
  | c :: rest =>
    match f (c :: rest) with
    | some x => some x
    | none => scanFor f rest

/-- Decimal value of a digit string (`fmt.Sscanf` with `%d` on a `\d+`
capture). -/
def natOfDigits (s : Str) : Nat :=
  s.foldl (fun acc c => 10 * acc + (c.toNat - '0'.toNat)) 0

/-- One array's status: the `raid.Status` struct. -/
structure Status where
  Name : Str
  State : Str
  Level : Str
  Devices : Nat
  Active : Nat
  DeviceList : Str
  Healthy : Bool
  Rebuilding : Bool
  Progress : Str
deriving DecidableEq

/-- Tail of the array-header regex `\s*:\s*(\w+)\s+(\w+)\s+(.*)` applied
after the `md\d+` name: returns the `state` and `level` captures. -/
def parseHeadTail (r2 : Str) : Option (Str × Str) :=
  match r2.dropWhile isSpaceC with
  | ':' :: r4 =>
    let r5 := r4.dropWhile isSpaceC
    let stw := r5.takeWhile isWordC
    let r6 := r5.dropWhile isWordC
    if stw.isEmpty then none
    else
      match r6 with
      | c :: r7 =>
        if isSpaceC c then
          let r8 := r7.dropWhile isSpaceC
          let lv := r8.takeWhile isWordC
          let r9 := r8.dropWhile isWordC
          if lv.isEmpty then none
          else
            match r9 with
            | c2 :: _ => if isSpaceC c2 then some (stw, lv) else none
            | [] => none
        else none
      | [] => none
  | _ => none

/-- The anchored array-header regex `^(md\d+)\s*:\s*(\w+)\s+(\w+)\s+(.*)`:
returns the name, state and level captures. -/
def parseArrayLine (s : Str) : Option (Str × Str × Str) :=
  match stripLit (lit "md") s with
  | none => none
  | some r1 =>
    let ds := r1.takeWhile Char.isDigit
    let r2 := r1.dropWhile Char.isDigit
    if ds.isEmpty then none
    else
      match parseHeadTail r2 with
      | some (stw, lv) => some (lit "md" ++ ds, stw, lv)
      | none => none

/-- The status-line regex `\[(\d+)/(\d+)\]\s*\[([U_]+)\]` anchored at the
head of the string: returns the total, active and marker captures. -/
def matchStatusAt (s : Str) : Option (Str × Str × Str) :=
  match s with
  | '[' :: rest =>
    let d1 := rest.takeWhile Char.isDigit
    let r1 := rest.dropWhile Char.isDigit
    if d1.isEmpty then none
    else
      match r1 with
      | '/' :: r2 =>
        let d2 := r2.takeWhile Char.isDigit
        let r3 := r2.dropWhile Char.isDigit
        if d2.isEmpty then none
        else
          match r3 with
          | ']' :: r4 =>
            match r4.dropWhile isSpaceC with
            | '[' :: r6 =>
              let bm := r6.takeWhile isSlotC
              let r7 := r6.dropWhile isSlotC
              if bm.isEmpty then none
              else
                match r7 with
                | ']' :: _ => some (d1, d2, bm)
                | _ => none
            | _ => none
          | _ => none
      | _ => none
  | _ => none

/-- The recovery-line regex `recovery\s*=\s*([\d.]+%)` anchored at the
head of the string: returns the percentage capture. -/
def matchRecoveryAt (s : Str) : Option Str :=
  match stripLit (lit "recovery") s with
  | none => none
  | some r1 =>
    match r1.dropWhile isSpaceC with
    | '=' :: r3 =>
      let r4 := r3.dropWhile isSpaceC
      let num := r4.takeWhile isNumDotC
      let r5 := r4.dropWhile isNumDotC
      if num.isEmpty then none
      else
        match r5 with
        | '%' :: _ => some (num ++ ['%'])
        | _ => none
    | _ => none

/-- `statusLine.FindStringSubmatch` on a whole line. -/
def matchStatusLine (s : Str) : Option (Str × Str × Str) :=
  scanFor matchStatusAt s

/-- `recoveryLine.FindStringSubmatch` on a whole line. -/
def matchRecoveryLine (s : Str) : Option Str :=
  scanFor matchRecoveryAt s

/-- A freshly started record after an array-header line: Go zero values
for every field the header does not set. -/
def initStatus (n stw lv : Str) : Status :=
  { Name := n, State := stw, Level := lv, Devices := 0, Active := 0,
    DeviceList := [], Healthy := false, Rebuilding := false, Progress := [] }

/-- The status-line update of the parser loop body. -/
def applyStatusLine (cur : Status) (line : Str) : Status :=
  match matchStatusLine line with
  | some (d1, d2, bm) =>
    { cur with Devices := natOfDigits d1, Active := natOfDigits d2,
               DeviceList := '[' :: (bm ++ [']']),
               Healthy := !bm.contains '_' }
  | none => cur

/-- The recovery-line update of the parser loop body. -/
def applyRecoveryLine (cur : Status) (line : Str) : Status :=
  match matchRecoveryLine line with
  | some p => { cur with Rebuilding := true, Progress := p, Healthy := false }
  | none => cur

/-- One non-header line applied to the in-progress record: the status
check runs first, then the recovery check, exactly as in the Go loop. -/
def applyLine (cur : Status) (line : Str) : Status :=
  applyRecoveryLine (applyStatusLine cur line) line

/-- The scanner loop of `parseMdstatReader`: accumulated records plus the
in-progress record. -/
def parseGo : List Str → List Status → Option Status → List Status
  | [], acc, cur => acc ++ cur.toList
  | line :: rest, acc, cur =>
    match parseArrayLine line, cur with
    | some (n, stw, lv), _ =>
      parseGo rest (acc ++ cur.toList) (some (initStatus n stw lv))
    | none, none => parseGo rest acc none
    | none, some c => parseGo rest acc (some (applyLine c line))

/-- `parseMdstatReader`: the document is given as its list of lines. -/
def parseMdstatReader (doc : List Str) : List Status :=
  parseGo doc [] none

/-- Reason text for an expected array with no parsed record. -/
def notFoundR (e : Str) : Str := lit "expected array " ++ e ++ lit " not found"

/-- Reason text for a rebuilding array. -/
def rebuildR (st : Status) : Str := st.Name ++ lit " rebuilding: " ++ st.Progress

/-- Reason text for a degraded (unhealthy, not rebuilding) array. -/
def degradedR (st : Status) : Str := st.Name ++ lit " degraded: " ++ st.DeviceList

/-- The inner loop of `Check` over all parsed records for one expected
name, carrying the `found` flag. -/
def checkArray (e : Str) : List Status → Bool → Option Str
  | [], found => if found then none else some (notFoundR e)
  | st :: rest, found =>
    if st.Name = e then
      if st.Healthy = false then
        if st.Rebuilding then some (rebuildR st) else some (degradedR st)
      else checkArray e rest true
    else checkArray e rest found

/-- The outer loop of `Check` over the expected names, in list order. -/
def checkAll (statuses : List Status) : List Str → Option Str
  | [] => none
  | e :: rest =>
    match checkArray e statuses false with
    | some r => some r
    | none => checkAll statuses rest

/-- `raid.Check` applied to the parsed records (the I/O path is outside
the model): overall verdict and reason. -/
def Check (statuses : List Status) (expected : List Str) : Bool × Str :=
  if statuses.isEmpty then (false, lit "no RAID arrays found")
  else
    match checkAll statuses expected with
    | some r => (false, r)
    | none =>
      (true, lit "all healthy: " ++
        List.intercalate (lit ", ") (statuses.map Status.Name))

/-! ## pkg/check: Checker abstraction and batch evaluator -/

/-- A deterministic `Checker`: its name and the outcome of `Check(ctx)`
(`none` = healthy, `some e` = an error with message `e`). -/
structure Checker where
  name : Str
  err : Option Str
deriving DecidableEq

/-- `check.Result`: name, verdict, reason, and whether the `Err` field
is non-nil. -/
structure Result where
  Name : Str
  Healthy : Bool
  Reason : Str
  hasErr : Bool
deriving DecidableEq

/-- The result built for a checker that actually runs. -/
def runResult (c : Checker) : Result :=
  match c.err with
  | none => { Name := c.name, Healthy := true, Reason := [], hasErr := false }
  | some e => { Name := c.name, Healthy := false, Reason := e, hasErr := true }

/-- The result recorded when the shared context is done before a checker
starts. -/
def timeoutResult (c : Checker) : Result :=
  { Name := c.name, Healthy := false, Reason := lit "timeout", hasErr := true }

/-- The loop of `RunAll`; `done i` is the observation of `ctx.Done()`
made just before the checker at overall index `i` would start. -/
def runAllGo (done : Nat → Bool) : Nat → List Checker → List Result
  | _, [] => []
  | i, c :: rest =>
    if done i then [timeoutResult c]
    else runResult c :: runAllGo done (i + 1) rest

/-- `check.RunAll`. -/
def RunAll (done : Nat → Bool) (checks : List Checker) : List Result :=
  runAllGo done 0 checks

/-- `check.AllHealthy`. -/
def AllHealthy (results : List Result) : Bool :=
  results.all (fun r => r.Healthy)

/-- `check.SummarizeFailures`. -/
def SummarizeFailures (results : List Result) : Str :=
  let failures :=
    (results.filter (fun r => !r.Healthy)).map
      (fun r => r.Name ++ lit ": " ++ r.Reason)
  if failures.isEmpty then lit "all checks passed"
  else List.intercalate (lit "; ") failures

/-! ## pkg/inhibitor: the Lock state machine

External effects (starting and stopping the `systemd-inhibit` process)
are recorded in an effect trace; the success of each external call is
an oracle argument (`startOk`, `killOk`). -/

/-- The `exec.Cmd` held by the lock: the `why` it was built with, and
whether its process was started (`cmd.Process != nil`). -/
structure Proc where
  why : Str
  started : Bool
deriving DecidableEq

/-- `inhibitor.Lock`. -/
structure Lock where
  Who : Str
  Why : Str
  What : Str
  Mode : Str
  cmd : Option Proc
  holding : Bool
deriving DecidableEq

/-- Externally visible events of a lock operation: entry into
`Acquire`/`Release`, a process start attempt, a kill attempt, and the
`Wait` that reaps the process. -/
inductive Eff
  | acquireCall (reason : Str)
  | start (why : Str) (ok : Bool)
  | releaseCall
  | kill (ok : Bool)
  | wait
deriving DecidableEq

/-- `inhibitor.New`. -/
def Lock.New (who why : Str) : Lock :=
  { Who := who, Why := why, What := lit "shutdown", Mode := lit "block",
    cmd := none, holding := false }

/-- `Lock.Acquire`: result lock state, returned error, effect trace. -/
def Lock.Acquire (l : Lock) (reason : Str) (startOk : Bool) :
    Lock × Option Str × List Eff :=
  if l.holding then (l, none, [Eff.acquireCall reason])
  else
    let why := if reason.isEmpty then l.Why else reason
    if startOk then
      ({ l with cmd := some { why := why, started := true }, holding := true },
       none, [Eff.acquireCall reason, Eff.start why true])
    else
      ({ l with cmd := some { why := why, started := false } },
       some (lit "failed to acquire inhibitor"),
       [Eff.acquireCall reason, Eff.start why false])

/-- `Lock.Release`: result lock state, returned error, effect trace. -/
def Lock.Release (l : Lock) (killOk : Bool) : Lock × Option Str × List Eff :=
  match l.cmd with
  | none => (l, none, [Eff.releaseCall])
  | some c =>
    if l.holding && c.started then
      if killOk then
        ({ l with holding := false, cmd := none }, none,
         [Eff.releaseCall, Eff.kill true, Eff.wait])
      else
        (l, some (lit "failed to release inhibitor"),
         [Eff.releaseCall, Eff.kill false])
    else (l, none, [Eff.releaseCall])

/-- `Lock.IsHolding`. -/
def Lock.IsHolding (l : Lock) : Bool := l.holding

/-- Reachable-state invariant of the Go lock: while holding, the command
exists and its process was started. -/
def Lock.WF (l : Lock) : Prop :=
  l.holding = true → (l.cmd.map Proc.started).getD false = true

/-- Every `.start` attempt in a trace. -/
def isStart : Eff → Bool
  | Eff.start _ _ => true
  | _ => false

/-- Every `.kill` attempt in a trace. -/
def isKill : Eff → Bool
  | Eff.kill _ => true
  | _ => false

/-- Entries into `Acquire`. -/
def isAcquireCall : Eff → Bool
  | Eff.acquireCall _ => true
  | _ => false

/-- Entries into `Release`. -/
def isReleaseCall : Eff → Bool
  | Eff.releaseCall => true
  | _ => false

/-- Number of lock calls (Acquire or Release entries) in a trace. -/
def lockCalls (t : List Eff) : Nat :=
  t.countP (fun e => isAcquireCall e || isReleaseCall e)

/-- The reasons of the `Acquire` entries of a trace, in order. -/
def acquireReasons (t : List Eff) : List Str :=
  t.filterMap (fun e =>
    match e with
    | Eff.acquireCall r => some r
    | _ => none)

/-! ## pkg/check: the Runner control loop -/

/-- `check.Runner` (the owned `Lock` is passed separately to `Run`). -/
structure Runner where
  Checks : List Checker
  Interval : Nat
  Timeout : Nat

/-- The environment of one poll cycle: the per-cycle deadline
observations and the outcomes of the external lock calls made in the
cycle, if any. -/
structure CycleEnv where
  done : Nat → Bool
  startOk : Bool
  killOk : Bool

/-- The lock-management tail of `runOnce`, applied to the cycle's
results: at most one `Acquire`/`Release`; errors are logged and
dropped. -/
def manageLock (l : Lock) (results : List Result) (startOk killOk : Bool) :
    Lock × List Eff :=
  if !AllHealthy results && !l.IsHolding then
    ((l.Acquire (SummarizeFailures results) startOk).1,
     (l.Acquire (SummarizeFailures results) startOk).2.2)
  else if AllHealthy results && l.IsHolding then
    ((l.Release killOk).1, (l.Release killOk).2.2)
  else (l, [])

/-- `Runner.runOnce`: evaluate all checks, then manage the lock. -/
def Runner.runOnce (r : Runner) (l : Lock) (env : CycleEnv) : Lock × List Eff :=
  manageLock l (RunAll env.done r.Checks) env.startOk env.killOk

/-- The cancellation branch of `Run`'s select: one final `Release` iff
currently holding. Returns the lock, the trace, and whether `Release`
was invoked. -/
def onCancel (l : Lock) (killOk : Bool) : Lock × List Eff × Bool :=
  if l.IsHolding then ((l.Release killOk).1, (l.Release killOk).2.2, true)
  else (l, [], false)

/-- The tick cycles of `Run`'s loop. -/
def runCycles (r : Runner) : Lock → List CycleEnv → Lock × List Eff
  | l, [] => (l, [])
  | l, e :: rest =>
    let s1 := r.runOnce l e
    let s2 := runCycles r s1.1 rest
    (s2.1, s1.2 ++ s2.2)

/-- The observable outcome of `Run`: it only returns on cancellation,
with `ctx.Err()`. -/
inductive RunOutcome
  | cancelled
deriving DecidableEq

/-- `Runner.Run` on a trace that ends with cancellation: the immediate
startup cycle, the tick cycles that completed before cancellation, and
the cancellation branch. Returns the final lock, the full effect
trace, whether the final `Release` was invoked, and the outcome. -/
def Runner.Run (r : Runner) (l : Lock) (first : CycleEnv)
    (ticks : List CycleEnv) (finalKillOk : Bool) :
    Lock × List Eff × Bool × RunOutcome :=
  let s1 := r.runOnce l first
  let s2 := runCycles r s1.1 ticks
  let s3 := onCancel s2.1 finalKillOk
  (s3.1, s1.2 ++ s2.2 ++ s3.2.1, s3.2.2, RunOutcome.cancelled)

/-! ## Concrete fixtures used by witnesses and counterexamples -/

/-- A healthy checker. -/
def chkA : Checker := { name := lit "a", err := none }

/-- Another healthy checker. -/
def chkB : Checker := { name := lit "b", err := none }

/-- A failing checker. -/
def chkC : Checker := { name := lit "c", err := some (lit "boom") }

/-- An idle lock as built by `inhibitor.New`. -/
def lock0 : Lock := Lock.New (lit "raid-inhibitor") (lit "raid unhealthy")

/-- A held lock with a started process. -/
def lockHeld : Lock :=
  { lock0 with holding := true, cmd := some { why := lit "y", started := true } }

/-- A cycle environment whose deadline never expires and whose external
calls succeed. -/
def env0 : CycleEnv := { done := fun _ => false, startOk := true, killOk := true }

/-! ## Specification-side definitions for the raid claims -/

/-- The first parsed record that matches the expected name and is
unhealthy (the record at which `Check`'s inner loop returns). -/
def failFind (statuses : List Status) (e : Str) : Option Status :=
  statuses.find? (fun st => st.Name == e && !st.Healthy)

/-- Expected name `e` passes the check: some record matches it and every
matching record is healthy. -/
abbrev passes (statuses : List Status) (e : Str) : Prop :=
  (∃ st ∈ statuses, st.Name = e) ∧
    ∀ st ∈ statuses, st.Name = e → st.Healthy = true

/-- The failure reason the claim predicts for a failing expected name:
not-found when no matching unhealthy record exists and none matches at
all, otherwise the rebuilding or degraded reason of the first matching
unhealthy record. -/
def reasonFor (statuses : List Status) (e : Str) : Str :=
  match failFind statuses e with
  | some st => if st.Rebuilding then rebuildR st else degradedR st
  | none => notFoundR e

/-- Names the array-header regex can produce: the literal `md` followed
by one or more digits. -/
def mdForm : Str → Bool
  | 'm' :: 'd' :: ds => !ds.isEmpty && ds.all Char.isDigit
  | _ => false

/-- Mid-record invariant tying the in-progress record to whether a slot
line (`ss`) and a recovery line (`sr`) have been seen in the record. -/
def RecInv (c : Status) (ss sr : Bool) : Prop :=
  c.Rebuilding = sr ∧ (sr = true → c.Healthy = false) ∧
    (sr = false → ss = true → (c.Healthy = false ↔ '_' ∈ c.DeviceList))

/-- Well-formedness scan mirroring the parser's line classification:
`inRec` tracks whether a record is in progress, `ss`/`sr` whether a
slot/recovery line has been seen in it. Each flushed record must have
seen a slot line, and no slot line may follow a recovery line within a
record. -/
def wfAux : List Str → Bool → Bool → Bool → Bool
  | [], inRec, ss, _ => !inRec || ss
  | line :: rest, inRec, ss, sr =>
    if (parseArrayLine line).isSome then
      (!inRec || ss) && wfAux rest true false false
    else if inRec then
      (if (matchStatusLine line).isSome then !sr else true) &&
        wfAux rest true (ss || (matchStatusLine line).isSome)
          (sr || (matchRecoveryLine line).isSome)
    else wfAux rest false ss sr

/-- A well-formed status document: every array record contains a
slot-status line, and recovery lines within a record only appear after
its slot line. -/
def wellFormed (doc : List Str) : Bool := wfAux doc false false false

/-- Witness fixture: a healthy record as parsed from `cdocWF`. -/
def st0 : Status :=
  { Name := lit "md0", State := lit "active", Level := lit "raid1",
    Devices := 2, Active := 2, DeviceList := lit "[UU]", Healthy := true,
    Rebuilding := false, Progress := [] }

/-- Witness fixture: a degraded record. -/
def stBad : Status :=
  { Name := lit "md1", State := lit "active", Level := lit "raid1",
    Devices := 2, Active := 1, DeviceList := lit "[U_]", Healthy := false,
    Rebuilding := false, Progress := [] }

/-- Witness fixture: a well-formed one-array document. -/
def cdocWF : List Str :=
  [lit "md0 : active raid1 sda[0] sdb[1]",
   lit "      3906886464 blocks super 1.2 [2/2] [UU]"]

/-- Witness fixture: a document whose first line is header-shaped but
whose name is not of the `md<digits>` form. -/
def cdoc9 : List Str :=
  [lit "foo : active raid1 sda[0] sdb[1]",
   lit "md0 : active raid1 sda[0] sdb[1]",
   lit "      1048576 blocks super 1.2 [2/2] [UU]"]

/-- An array-header line for `md0`. -/
def hline10 : Str := lit "md0 : active raid1 sda[0] sdb[1]"

/-- A document whose only record has a recovery line but no slot-status
line. -/
def cdoc10 : List Str :=
  [hline10,
   lit "      [>....................]  recovery =  5.0% (195344256/3906886464) finish=305.2min speed=202544K/sec"]

/-! ## Theorems -/

/-- Claim C8: a failed external start leaves `Acquire` returning an error
with the holding state still idle; a failed external stop leaves
`Release` returning an error with the lock state exactly unchanged. -/
theorem claim_C8 (l1 l2 : Lock) (r : Str) (h1 : l1.holding = false)
    (h2 : l2.holding = true)
    (h2c : (l2.cmd.map Proc.started).getD false = true) :
    (l1.Acquire r false).2.1.isSome = true ∧
    (l1.Acquire r false).1.holding = false ∧
    (l2.Release false).2.1.isSome = true ∧
    (l2.Release false).1 = l2 := by
  refine ⟨?_, ?_, ?_, ?_⟩
  · simp [Lock.Acquire, h1]
  · simp [Lock.Acquire, h1]
  · cases hc : l2.cmd with
    | none => rw [hc] at h2c; simp at h2c
    | some c =>
      rw [hc] at h2c
      simp at h2c
      simp [Lock.Release, hc, h2, h2c]
  · cases hc : l2.cmd with
    | none => rw [hc] at h2c; simp at h2c
    | some c =>
      rw [hc] at h2c
      simp at h2c
      simp [Lock.Release, hc, h2, h2c]

/-- Witness for C8 at concrete locks. -/
theorem claim_C8_witness :
    (lock0.Acquire (lit "x") false).1.holding = false ∧
    (lockHeld.Release false).1 = lockHeld :=
  ⟨(claim_C8 lock0 lockHeld (lit "x") (by decide) (by decide) (by decide)).2.1,
   (claim_C8 lock0 lockHeld (lit "x") (by decide) (by decide) (by decide)).2.2.2⟩

/-- Claim C7: a successful `Release` after a successful `Acquire` returns
the lock to idle, and the trace of the release is kill-then-wait — the
external process has been reaped before `Release` returns. -/
theorem claim_C7 (l : Lock) (r : Str) (hwf : l.WF) :
    ((l.Acquire r true).1.Release true).1.holding = false ∧
    ((l.Acquire r true).1.Release true).1.cmd = none ∧
    ((l.Acquire r true).1.Release true).2.1 = none ∧
    ((l.Acquire r true).1.Release true).2.2 =
      [Eff.releaseCall, Eff.kill true, Eff.wait] := by
  by_cases h : l.holding = true
  · cases hc : l.cmd with
    | none =>
      have := hwf h
      rw [hc] at this
      simp at this
    | some c =>
      have hs := hwf h
      rw [hc] at hs
      simp at hs
      refine ⟨?_, ?_, ?_, ?_⟩ <;> simp [Lock.Acquire, Lock.Release, h, hc, hs]
  · have h' : l.holding = false := by simpa using h
    refine ⟨?_, ?_, ?_, ?_⟩ <;> simp [Lock.Acquire, Lock.Release, h']

/-- Witness for C7 at a concrete idle lock. -/
theorem claim_C7_witness :
    ((lock0.Acquire (lit "z") true).1.Release true).1.holding = false :=
  (claim_C7 lock0 (lit "z") (fun h => absurd h (by decide))).1

/-- Claim C6: from idle, two `Acquire`s in a row perform exactly one
external process start, the second returning success and leaving the
lock (state and stored reason) unchanged; two `Release`s in a row then
perform exactly one kill, the second being a success no-op. -/
theorem claim_C6 (l : Lock) (r1 r2 : Str) (h : l.holding = false) :
    ((l.Acquire r1 true).2.2 ++
      ((l.Acquire r1 true).1.Acquire r2 true).2.2).countP isStart = 1 ∧
    ((l.Acquire r1 true).1.Acquire r2 true).2.1 = none ∧
    ((l.Acquire r1 true).1.Acquire r2 true).1 = (l.Acquire r1 true).1 ∧
    (((l.Acquire r1 true).1.Release true).2.2 ++
      ((((l.Acquire r1 true).1.Release true).1).Release true).2.2).countP
        isKill = 1 ∧
    (((l.Acquire r1 true).1.Release true).1.Release true).2.1 = none ∧
    (((l.Acquire r1 true).1.Release true).1.Release true).1 =
      ((l.Acquire r1 true).1.Release true).1 := by
  refine ⟨?_, ?_, ?_, ?_, ?_, ?_⟩ <;>
    simp [Lock.Acquire, Lock.Release, h, isStart, isKill, List.countP_cons]

/-- Witness for C6 at a concrete idle lock. -/
theorem claim_C6_witness :
    ((lock0.Acquire (lit "x") true).2.2 ++
      ((lock0.Acquire (lit "x") true).1.Acquire (lit "y") true).2.2).countP
        isStart = 1 :=
  (claim_C6 lock0 (lit "x") (lit "y") (by decide)).1

/-- Claim C4: whenever `Run`'s context is cancelled, it returns a
cancellation outcome and invokes one final `Release` exactly when the
lock is held at that moment — so it never returns while holding without
having issued a `Release`. -/
theorem claim_C4 (r : Runner) (l : Lock) (first : CycleEnv)
    (ticks : List CycleEnv) (fk : Bool) :
    (r.Run l first ticks fk).2.2.2 = RunOutcome.cancelled ∧
    (r.Run l first ticks fk).2.2.1 =
      (runCycles r (r.runOnce l first).1 ticks).1.holding ∧
    ((r.Run l first ticks fk).1.holding = true →
      (r.Run l first ticks fk).2.2.1 = true) := by
  refine ⟨rfl, ?_, ?_⟩
  · show (onCancel (runCycles r (r.runOnce l first).1 ticks).1 fk).2.2 = _
    cases h : (runCycles r (r.runOnce l first).1 ticks).1.holding <;>
      simp [onCancel, Lock.IsHolding, h]
  · intro hfin
    show (onCancel (runCycles r (r.runOnce l first).1 ticks).1 fk).2.2 = true
    cases h : (runCycles r (r.runOnce l first).1 ticks).1.holding with
    | true => simp [onCancel, Lock.IsHolding, h]
    | false =>
      exfalso
      have hr : (r.Run l first ticks fk).1 =
          (runCycles r (r.runOnce l first).1 ticks).1 := by
        show (onCancel (runCycles r (r.runOnce l first).1 ticks).1 fk).1 = _
        simp [onCancel, Lock.IsHolding, h]
      rw [hr] at hfin
      rw [hfin] at h
      cases h

/-- Witness for C4: with an unhealthy check keeping the lock held and a
failing final kill, the final release is still invoked. -/
theorem claim_C4_witness :
    (Runner.Run { Checks := [chkC], Interval := 30, Timeout := 5 }
      lockHeld env0 [] false).2.2.1 = true :=
  (claim_C4 { Checks := [chkC], Interval := 30, Timeout := 5 }
    lockHeld env0 [] false).2.2 (by decide)

/-- When the aggregate is unhealthy, `SummarizeFailures` is the join of
the failing results' name+reason pairs (the no-failure branch is not
taken). -/
lemma summarize_of_not_all {results : List Result}
    (hA : AllHealthy results = false) :
    SummarizeFailures results =
      List.intercalate (lit "; ")
        ((results.filter (fun r => !r.Healthy)).map
          (fun r => r.Name ++ lit ": " ++ r.Reason)) := by
  unfold SummarizeFailures
  rw [if_neg]
  intro hemp
  rw [List.isEmpty_iff] at hemp
  have hf : results.filter (fun r => !r.Healthy) = [] := List.map_eq_nil_iff.mp hemp
  have hall : AllHealthy results = true := by
    unfold AllHealthy
    rw [List.all_eq_true]
    intro x hx
    have := List.filter_eq_nil_iff.mp hf x hx
    simpa using this
  rw [hall] at hA
  cases hA

/-- Claim C5: `runOnce` aggregates the results and makes exactly one
lock decision — an `Acquire` with the joined failure summary iff
unhealthy and idle, a `Release` iff healthy and held, and no lock call
when the aggregate matches the holding state. -/
theorem claim_C5 (l : Lock) (results : List Result) (startOk killOk : Bool) :
    (∀ (ru : Runner) (env : CycleEnv),
      ru.runOnce l env =
        manageLock l (RunAll env.done ru.Checks) env.startOk env.killOk) ∧
    (AllHealthy results = false → l.holding = false →
      acquireReasons (manageLock l results startOk killOk).2 =
        [List.intercalate (lit "; ")
          ((results.filter (fun r => !r.Healthy)).map
            (fun r => r.Name ++ lit ": " ++ r.Reason))] ∧
      (manageLock l results startOk killOk).2.countP isReleaseCall = 0) ∧
    (AllHealthy results = true → l.holding = true →
      acquireReasons (manageLock l results startOk killOk).2 = [] ∧
      (manageLock l results startOk killOk).2.countP isReleaseCall = 1) ∧
    (AllHealthy results = true → l.holding = false →
      manageLock l results startOk killOk = (l, [])) ∧
    (AllHealthy results = false → l.holding = true →
      manageLock l results startOk killOk = (l, [])) ∧
    lockCalls (manageLock l results startOk killOk).2 ≤ 1 := by
  refine ⟨fun ru env => rfl, ?_, ?_, ?_, ?_, ?_⟩
  · intro hA hH
    rw [← summarize_of_not_all hA]
    cases startOk <;>
      simp [manageLock, Lock.IsHolding, Lock.Acquire, hA, hH,
        acquireReasons, isReleaseCall, List.countP_cons]
  · intro hA hH
    unfold manageLock Lock.Release
    cases hc : l.cmd with
    | none =>
      simp [Lock.IsHolding, hA, hH, acquireReasons, isReleaseCall,
        List.countP_cons]
    | some c =>
      cases hs : c.started <;> cases killOk <;>
        simp [Lock.IsHolding, hA, hH, hs, acquireReasons, isReleaseCall,
          List.countP_cons]
  · intro hA hH
    simp [manageLock, Lock.IsHolding, hA, hH]
  · intro hA hH
    simp [manageLock, Lock.IsHolding, hA, hH]
  · cases hA : AllHealthy results <;> cases hH : l.holding
    · cases startOk <;>
        simp [manageLock, Lock.IsHolding, Lock.Acquire, hA, hH, lockCalls,
          isAcquireCall, isReleaseCall, List.countP_cons]
    · simp [manageLock, Lock.IsHolding, hA, hH, lockCalls]
    · simp [manageLock, Lock.IsHolding, hA, hH, lockCalls]
    · unfold manageLock Lock.Release
      cases hc : l.cmd with
      | none =>
        simp [Lock.IsHolding, hA, hH, lockCalls, isAcquireCall,
          isReleaseCall, List.countP_cons]
      | some c =>
        cases hs : c.started <;> cases killOk <;>
          simp [Lock.IsHolding, hA, hH, hs, lockCalls, isAcquireCall,
            isReleaseCall, List.countP_cons]

/-- Witness for C5: a failing cycle on an idle lock acquires with the
summarized reason; a healthy cycle on a held lock releases once. -/
theorem claim_C5_witness :
    acquireReasons (manageLock lock0 [runResult chkC] true true).2 =
      [lit "c: boom"] ∧
    (manageLock lockHeld [runResult chkA] true true).2.countP
      isReleaseCall = 1 := by
  constructor
  · exact (((claim_C5 lock0 [runResult chkC] true true).2.1
      (by decide) (by decide)).1).trans (by decide)
  · exact ((claim_C5 lockHeld [runResult chkA] true true).2.2.1
      (by decide) (by decide)).2

/-- The loop of `RunAll` when the deadline expires exactly before the
checker at relative index `i`: earlier checkers ran normally, the
current checker is recorded as timed out, and the tail is dropped. -/
lemma runAllGo_timeout (done : Nat → Bool) :
    ∀ (checks : List Checker) (k i : Nat) (hi : i < checks.length),
      (∀ j, j < i → done (k + j) = false) → done (k + i) = true →
      runAllGo done k checks =
        (checks.take i).map runResult ++
          [timeoutResult (checks.get ⟨i, hi⟩)] := by
  intro checks
  induction checks with
  | nil => intro k i hi; exact absurd hi (by simp)
  | cons c rest ih =>
    intro k i hi hb hc
    cases i with
    | zero =>
      have h0 : done k = true := by simpa using hc
      simp [runAllGo, h0]
    | succ i' =>
      have h0 : done k = false := by
        have := hb 0 (Nat.succ_pos i')
        simpa using this
      have hb' : ∀ j, j < i' → done (k + 1 + j) = false := by
        intro j hj
        have heq : k + 1 + j = k + (j + 1) := by omega
        rw [heq]
        exact hb (j + 1) (by omega)
      have hc' : done (k + 1 + i') = true := by
        have heq : k + 1 + i' = k + (i' + 1) := by omega
        rw [heq]
        exact hc
      have hrec := ih (k + 1) i' (by simpa using hi) hb' hc'
      simp [runAllGo, h0, hrec]

/-- Counterexample to C1: with the deadline already expired and two
checkers, `RunAll` returns a single timeout entry — the second checker
is silently omitted, so the result list does not contain one entry per
checker. -/
theorem claim_C1_counterexample :
    RunAll (fun _ => true) [chkA, chkB] = [timeoutResult chkA] ∧
    (RunAll (fun _ => true) [chkA, chkB]).length ≠ [chkA, chkB].length := by
  decide

/-- Claim C1 (amended): if the shared deadline expires exactly before
checker `i` starts, `RunAll` returns the normal results of the earlier
checkers followed by a single failed-by-timeout entry for checker `i`,
omitting all later checkers. -/
theorem claim_C1 (done : Nat → Bool) (checks : List Checker) (i : Nat)
    (hi : i < checks.length) (hbefore : ∀ j, j < i → done j = false)
    (hcancel : done i = true) :
    RunAll done checks =
      (checks.take i).map runResult ++
        [timeoutResult (checks.get ⟨i, hi⟩)] := by
  unfold RunAll
  exact runAllGo_timeout done checks 0 i hi
    (fun j hj => by simpa using hbefore j hj) (by simpa using hcancel)

/-- Witness for the amended C1: deadline expires before the second of
three checkers. -/
theorem claim_C1_witness :
    RunAll (fun j => decide (1 ≤ j)) [chkA, chkB, chkC] =
      [runResult chkA, timeoutResult chkB] := by
  have h := claim_C1 (fun j => decide (1 ≤ j)) [chkA, chkB, chkC] 1
    (by decide) (by intro j hj; have hj0 : j = 0 := (by omega); rw [hj0]; decide)
    (by decide)
  exact h.trans (by decide)

/-- `failFind` unfolded one record at a time. -/
lemma failFind_cons (st : Status) (rest : List Status) (e : Str) :
    failFind (st :: rest) e =
      if st.Name = e ∧ st.Healthy = false then some st else failFind rest e := by
  unfold failFind
  rw [List.find?_cons]
  by_cases hn : st.Name = e
  · by_cases hh : st.Healthy = false
    · simp [hn, hh]
    · have hh' : st.Healthy = true := by simpa using hh
      simp [hn, hh', hh]
  · have hb : (st.Name == e) = false := by simpa using hn
    rw [if_neg (fun hc => hn hc.1)]
    simp [hb]

/-- Characterization of `Check`'s inner loop: it returns the failure
reason of the first matching unhealthy record, or not-found when the
`found` flag stays unset. -/
lemma checkArray_eq (e : Str) : ∀ (statuses : List Status) (found : Bool),
    checkArray e statuses found =
      match failFind statuses e with
      | some st => some (if st.Rebuilding then rebuildR st else degradedR st)
      | none =>
        if found || statuses.any (fun st => st.Name == e) then none
        else some (notFoundR e) := by
  intro statuses
  induction statuses with
  | nil =>
    intro found
    cases found <;> simp [checkArray, failFind]
  | cons st rest ih =>
    intro found
    rw [failFind_cons]
    by_cases hn : st.Name = e
    · by_cases hh : st.Healthy = false
      · rw [if_pos ⟨hn, hh⟩]
        cases hr : st.Rebuilding <;> simp [checkArray, hn, hh, hr]
      · rw [if_neg (by intro hc; exact hh hc.2)]
        have hh' : st.Healthy = true := by simpa using hh
        rw [show checkArray e (st :: rest) found = checkArray e rest true by
          simp [checkArray, hn, hh']]
        rw [ih true]
        cases hf : failFind rest e with
        | some st' => rfl
        | none => simp [hn]
    · rw [if_neg (by intro hc; exact hn hc.1)]
      rw [show checkArray e (st :: rest) found = checkArray e rest found by
        simp [checkArray, hn]]
      rw [ih found]
      cases hf : failFind rest e with
      | some st' => rfl
      | none => simp [hn]

/-- A passing expected name makes the inner loop return `none`. -/
lemma checkArray_pass {statuses : List Status} {e : Str}
    (h : passes statuses e) : checkArray e statuses false = none := by
  rw [checkArray_eq]
  have hfind : failFind statuses e = none := by
    unfold failFind
    rw [List.find?_eq_none]
    intro st hst hcontra
    rw [Bool.and_eq_true] at hcontra
    have hname : st.Name = e := by simpa using hcontra.1
    have hunh : st.Healthy = false := by simpa using hcontra.2
    rw [h.2 st hst hname] at hunh
    cases hunh
  rw [hfind]
  have hany : statuses.any (fun st => st.Name == e) = true := by
    rw [List.any_eq_true]
    obtain ⟨st, hst, hname⟩ := h.1
    exact ⟨st, hst, by simpa using hname⟩
  simp [hany]

/-- A failing expected name makes the inner loop return the predicted
reason. -/
lemma checkArray_fail {statuses : List Status} {e : Str}
    (h : ¬ passes statuses e) :
    checkArray e statuses false = some (reasonFor statuses e) := by
  rw [checkArray_eq]
  unfold reasonFor
  cases hf : failFind statuses e with
  | some st => rfl
  | none =>
    cases hany : statuses.any (fun st => st.Name == e) with
    | false => simp
    | true =>
      exfalso
      apply h
      constructor
      · obtain ⟨st, hst, hb⟩ := List.any_eq_true.mp hany
        exact ⟨st, hst, by simpa using hb⟩
      · intro st hst hname
        have hnot := List.find?_eq_none.mp hf st hst
        cases hS : st.Healthy with
        | true => rfl
        | false =>
          exfalso
          apply hnot
          rw [Bool.and_eq_true]
          exact ⟨by simpa using hname, by simp [hS]⟩

/-- The outer loop of `Check` stops at the first failing expected name. -/
lemma checkAll_first_fail {statuses : List Status} (pre : List Str) (e : Str)
    (post : List Str) (hpre : ∀ p ∈ pre, passes statuses p)
    (hfail : ¬ passes statuses e) :
    checkAll statuses (pre ++ e :: post) = some (reasonFor statuses e) := by
  induction pre with
  | nil =>
    rw [List.nil_append]
    simp [checkAll, checkArray_fail hfail]
  | cons p ps ih =>
    have hp : passes statuses p := hpre p (by simp)
    rw [List.cons_append]
    rw [show checkAll statuses (p :: (ps ++ e :: post)) =
      checkAll statuses (ps ++ e :: post) by
        simp [checkAll, checkArray_pass hp]]
    exact ih (fun q hq => hpre q (by simp [hq]))

/-- `Check` on a nonempty record list with a first failing expected name:
unhealthy with exactly the predicted reason, the tail never examined. -/
lemma check_first_fail {statuses : List Status} (hne : statuses ≠ [])
    (pre : List Str) (e : Str) (post : List Str)
    (hpre : ∀ p ∈ pre, passes statuses p) (hfail : ¬ passes statuses e) :
    Check statuses (pre ++ e :: post) = (false, reasonFor statuses e) := by
  unfold Check
  rw [if_neg (by simpa [List.isEmpty_iff] using hne)]
  rw [checkAll_first_fail pre e post hpre hfail]

/-- Claim C3: on a document with at least one record, `Check` walks the
expected names in order and returns unhealthy with exactly the reason
determined by the first failing name (not-found / rebuilding with
progress / degraded with raw marker), never examining the names after
it. -/
theorem claim_C3 (statuses : List Status) (hne : statuses ≠ [])
    (pre : List Str) (e : Str) (post : List Str)
    (hpre : ∀ p ∈ pre, passes statuses p) (hfail : ¬ passes statuses e) :
    Check statuses (pre ++ e :: post) = (false, reasonFor statuses e) :=
  check_first_fail hne pre e post hpre hfail

/-- Witness for C3: the second expected name is degraded, the third is
never reached. -/
theorem claim_C3_witness :
    Check [st0, stBad] [lit "md0", lit "md1", lit "md2"] =
      (false, lit "md1 degraded: [U_]") := by
  have h := claim_C3 [st0, stBad] (by decide) [lit "md0"] (lit "md1")
    [lit "md2"] (by decide) (by decide)
  exact h.trans (by decide)

/-- Step equation of the parser loop: an array-header line flushes the
in-progress record and opens a new one. -/
lemma parseGo_cons_header {line : Str} {n stw lv : Str}
    (h : parseArrayLine line = some (n, stw, lv)) (rest : List Str)
    (acc : List Status) (cur : Option Status) :
    parseGo (line :: rest) acc cur =
      parseGo rest (acc ++ cur.toList) (some (initStatus n stw lv)) := by
  cases cur <;> simp [parseGo, h]

/-- Step equation of the parser loop: a non-header line with no record
in progress is skipped. -/
lemma parseGo_cons_skip {line : Str} (h : parseArrayLine line = none)
    (rest : List Str) (acc : List Status) :
    parseGo (line :: rest) acc none = parseGo rest acc none := by
  simp [parseGo, h]

/-- Step equation of the parser loop: a non-header line is applied to
the record in progress. -/
lemma parseGo_cons_body {line : Str} (h : parseArrayLine line = none)
    (rest : List Str) (acc : List Status) (c : Status) :
    parseGo (line :: rest) acc (some c) =
      parseGo rest acc (some (applyLine c line)) := by
  simp [parseGo, h]

/-- Line updates never change a record's name. -/
lemma applyLine_Name (c : Status) (line : Str) :
    (applyLine c line).Name = c.Name := by
  unfold applyLine applyRecoveryLine applyStatusLine
  cases h1 : matchStatusLine line <;> cases h2 : matchRecoveryLine line <;>
    simp [h1, h2]

/-- Everything `takeWhile` keeps satisfies the predicate. -/
lemma takeWhile_all {p : Char → Bool} (l : Str) :
    (l.takeWhile p).all p = true := by
  rw [List.all_eq_true]
  intro x hx
  exact List.mem_takeWhile_imp hx

/-- Names produced by the array-header regex are `md` plus digits. -/
lemma parseArrayLine_mdForm {line n stw lv : Str}
    (h : parseArrayLine line = some (n, stw, lv)) : mdForm n = true := by
  unfold parseArrayLine at h
  cases hs : stripLit (lit "md") line with
  | none => rw [hs] at h; cases h
  | some r1 =>
    rw [hs] at h
    simp only at h
    by_cases hd : (r1.takeWhile Char.isDigit).isEmpty
    · rw [if_pos hd] at h; cases h
    · rw [if_neg hd] at h
      cases hp : parseHeadTail (r1.dropWhile Char.isDigit) with
      | none => rw [hp] at h; cases h
      | some pair =>
        obtain ⟨a, b⟩ := pair
        rw [hp] at h
        simp only [Option.some.injEq, Prod.mk.injEq] at h
        obtain ⟨h1, h2, h3⟩ := h
        rw [← h1]
        show mdForm ('m' :: 'd' :: r1.takeWhile Char.isDigit) = true
        show (!(r1.takeWhile Char.isDigit).isEmpty &&
          (r1.takeWhile Char.isDigit).all Char.isDigit) = true
        rw [Bool.and_eq_true]
        constructor
        · simpa using hd
        · exact takeWhile_all r1

/-- Every record the parser outputs has an `md<digits>` name. -/
lemma parseGo_mdForm : ∀ (lines : List Str) (acc : List Status)
    (cur : Option Status),
    (∀ a ∈ acc, mdForm a.Name = true) →
    (∀ c, cur = some c → mdForm c.Name = true) →
    ∀ st ∈ parseGo lines acc cur, mdForm st.Name = true := by
  intro lines
  induction lines with
  | nil =>
    intro acc cur hacc hcur st hst
    simp only [parseGo] at hst
    rw [List.mem_append] at hst
    cases hst with
    | inl h => exact hacc st h
    | inr h =>
      cases cur with
      | none => simp at h
      | some c =>
        simp at h
        rw [h]
        exact hcur c rfl
  | cons line rest ih =>
    intro acc cur hacc hcur st hst
    cases hp : parseArrayLine line with
    | some triple =>
      obtain ⟨n, stw, lv⟩ := triple
      rw [parseGo_cons_header hp rest acc cur] at hst
      refine ih (acc ++ cur.toList) (some (initStatus n stw lv)) ?_ ?_ st hst
      · intro a ha
        rw [List.mem_append] at ha
        cases ha with
        | inl h => exact hacc a h
        | inr h =>
          cases cur with
          | none => simp at h
          | some c =>
            simp at h
            rw [h]
            exact hcur c rfl
      · intro c hc
        injection hc with hc'
        rw [← hc']
        show mdForm (initStatus n stw lv).Name = true
        unfold initStatus
        exact parseArrayLine_mdForm hp
    | none =>
      cases cur with
      | none =>
        rw [parseGo_cons_skip hp rest acc] at hst
        exact ih acc none hacc (fun c hc => by cases hc) st hst
      | some c =>
        rw [parseGo_cons_body hp rest acc c] at hst
        refine ih acc (some (applyLine c line)) hacc ?_ st hst
        intro c' hc'
        injection hc' with hc''
        rw [← hc'']
        rw [applyLine_Name]
        exact hcur c rfl

/-- Claim C9: the parser only opens records for `md<digits>` names, so an
expected name not of that form is never matched by any record — even if
the document contains a header-shaped line with that name — and, when
reached, `Check` reports it as not found. -/
theorem claim_C9 (doc : List Str) (e : Str) (he : mdForm e = false) :
    (∀ st ∈ parseMdstatReader doc, st.Name ≠ e) ∧
    (∀ pre post, parseMdstatReader doc ≠ [] →
      (∀ p ∈ pre, passes (parseMdstatReader doc) p) →
      Check (parseMdstatReader doc) (pre ++ e :: post) =
        (false, notFoundR e)) := by
  have hnames : ∀ st ∈ parseMdstatReader doc, mdForm st.Name = true :=
    parseGo_mdForm doc [] none (fun a ha => absurd ha (List.not_mem_nil a))
      (fun c hc => by cases hc)
  have hne : ∀ st ∈ parseMdstatReader doc, st.Name ≠ e := by
    intro st hst heq
    have hm := hnames st hst
    rw [heq] at hm
    rw [hm] at he
    cases he
  refine ⟨hne, ?_⟩
  intro pre post hnonempty hpre
  have hfail : ¬ passes (parseMdstatReader doc) e := by
    intro hpass
    obtain ⟨⟨st, hst, hname⟩, _⟩ := hpass
    exact hne st hst hname
  have h := check_first_fail hnonempty pre e post hpre hfail
  rw [h]
  have hff : failFind (parseMdstatReader doc) e = none := by
    unfold failFind
    rw [List.find?_eq_none]
    intro st hst hcontra
    rw [Bool.and_eq_true] at hcontra
    exact hne st hst (by simpa using hcontra.1)
  unfold reasonFor
  rw [hff]

/-- Witness for C9: the `foo` header line opens no record, and `Check`
reports `foo` as not found. -/
theorem claim_C9_witness :
    Check (parseMdstatReader cdoc9) [lit "foo"] =
      (false, notFoundR (lit "foo")) := by
  have h := (claim_C9 cdoc9 (lit "foo") (by decide)).2 [] [] (by decide)
    (fun p hp => absurd hp (List.not_mem_nil p))
  exact h

/-- A record flushed with its slot line seen satisfies the healthy-iff
specification. -/
lemma recInv_flush {c : Status} {sr : Bool} (h : RecInv c true sr) :
    (c.Healthy = false ↔ ('_' ∈ c.DeviceList ∨ c.Rebuilding = true)) := by
  obtain ⟨h1, h2, h3⟩ := h
  cases sr with
  | true =>
    constructor
    · intro _
      right
      exact h1
    · intro _
      exact h2 rfl
  | false =>
    have h4 := h3 rfl rfl
    rw [h1]
    constructor
    · intro hh
      left
      exact h4.mp hh
    · intro hh
      cases hh with
      | inl hm => exact h4.mpr hm
      | inr hf => cases hf

/-- Membership of the missing-slot marker in the bracketed device list
is membership in the bare bitmap. -/
lemma mem_brackets (bm : Str) :
    ('_' ∈ ('[' :: (bm ++ [']']))) ↔ '_' ∈ bm := by
  constructor
  · intro h
    rcases List.mem_cons.mp h with h1 | h2
    · exact absurd h1 (by decide)
    · rcases List.mem_append.mp h2 with h3 | h4
      · exact h3
      · exact absurd (List.mem_singleton.mp h4) (by decide)
  · intro h
    exact List.mem_cons_of_mem _ (List.mem_append_left _ h)

/-- `List.contains` agrees with membership on characters. -/
lemma contains_mem_iff (bm : Str) : bm.contains '_' = true ↔ '_' ∈ bm :=
  List.elem_iff

/-- Preservation of the mid-record invariant by one non-header line,
provided no slot line arrives after a recovery line. -/
lemma recInv_step {c : Status} {ss sr : Bool} {line : Str}
    (h : RecInv c ss sr)
    (hslot : (matchStatusLine line).isSome = true → sr = false) :
    RecInv (applyLine c line) (ss || (matchStatusLine line).isSome)
      (sr || (matchRecoveryLine line).isSome) := by
  obtain ⟨h1, h2, h3⟩ := h
  cases hS : matchStatusLine line with
  | none =>
    cases hR : matchRecoveryLine line with
    | none =>
      have he : applyLine c line = c := by
        simp [applyLine, applyStatusLine, applyRecoveryLine, hS, hR]
      rw [he]
      simpa using ⟨h1, h2, h3⟩
    | some p =>
      have he : applyLine c line =
          { c with Rebuilding := true, Progress := p, Healthy := false } := by
        simp [applyLine, applyStatusLine, applyRecoveryLine, hS, hR]
      rw [he]
      refine ⟨by simp, fun _ => rfl, fun hsr' _ => ?_⟩
      rw [Bool.or_eq_false_iff] at hsr'
      cases hsr'.2
  | some triple =>
    obtain ⟨d1, d2, bm⟩ := triple
    have hsr : sr = false := hslot (by rw [hS]; rfl)
    cases hR : matchRecoveryLine line with
    | none =>
      have he : applyLine c line =
          { c with Devices := natOfDigits d1, Active := natOfDigits d2,
                   DeviceList := '[' :: (bm ++ [']']),
                   Healthy := !bm.contains '_' } := by
        simp [applyLine, applyStatusLine, applyRecoveryLine, hS, hR]
      rw [he]
      refine ⟨?_, ?_, ?_⟩
      · show c.Rebuilding = (sr || false)
        rw [h1, Bool.or_false]
      · intro hsr'
        rw [hsr] at hsr'
        simp at hsr'
      · intro _ _
        show (!bm.contains '_') = false ↔ '_' ∈ '[' :: (bm ++ [']'])
        rw [mem_brackets]
        rw [Bool.not_eq_false']
        exact contains_mem_iff bm
    | some p =>
      have he : applyLine c line =
          { c with Devices := natOfDigits d1, Active := natOfDigits d2,
                   DeviceList := '[' :: (bm ++ [']']),
                   Rebuilding := true, Progress := p, Healthy := false } := by
        simp [applyLine, applyStatusLine, applyRecoveryLine, hS, hR]
      rw [he]
      refine ⟨by simp, fun _ => rfl, fun hsr' _ => ?_⟩
      rw [Bool.or_eq_false_iff] at hsr'
      cases hsr'.2

/-- Step equation of the well-formedness scan at a header line. -/
lemma wfAux_cons_header {line : Str}
    (hh : (parseArrayLine line).isSome = true) (rest : List Str)
    (inRec ss sr : Bool) :
    wfAux (line :: rest) inRec ss sr =
      ((!inRec || ss) && wfAux rest true false false) := by
  simp [wfAux, hh]

/-- Step equation of the well-formedness scan inside a record. -/
lemma wfAux_cons_inrec {line : Str}
    (hh : (parseArrayLine line).isSome = false) (rest : List Str)
    (ss sr : Bool) :
    wfAux (line :: rest) true ss sr =
      ((if (matchStatusLine line).isSome then !sr else true) &&
        wfAux rest true (ss || (matchStatusLine line).isSome)
          (sr || (matchRecoveryLine line).isSome)) := by
  simp [wfAux, hh]

/-- Step equation of the well-formedness scan outside a record. -/
lemma wfAux_cons_notrec {line : Str}
    (hh : (parseArrayLine line).isSome = false) (rest : List Str)
    (ss sr : Bool) :
    wfAux (line :: rest) false ss sr = wfAux rest false ss sr := by
  simp [wfAux, hh]

/-- Main parser invariant: on a well-formed remainder, every record the
loop eventually outputs satisfies the healthy-iff specification. -/
lemma parseGo_healthy : ∀ (lines : List Str) (acc : List Status)
    (cur : Option Status) (ss sr : Bool),
    wfAux lines cur.isSome ss sr = true →
    (∀ a ∈ acc, (a.Healthy = false ↔ ('_' ∈ a.DeviceList ∨ a.Rebuilding = true))) →
    (∀ c, cur = some c → RecInv c ss sr) →
    ∀ st ∈ parseGo lines acc cur,
      (st.Healthy = false ↔ ('_' ∈ st.DeviceList ∨ st.Rebuilding = true)) := by
  intro lines
  induction lines with
  | nil =>
    intro acc cur ss sr hwf hacc hcur st hst
    simp only [parseGo] at hst
    rw [List.mem_append] at hst
    cases hst with
    | inl h => exact hacc st h
    | inr h =>
      cases cur with
      | none => simp at h
      | some c =>
        simp at h
        rw [h]
        have hss : ss = true := by simpa using hwf
        have hinv := hcur c rfl
        rw [hss] at hinv
        exact recInv_flush hinv
  | cons line rest ih =>
    intro acc cur ss sr hwf hacc hcur st hst
    cases hp : parseArrayLine line with
    | some triple =>
      obtain ⟨n, stw, lv⟩ := triple
      rw [parseGo_cons_header hp rest acc cur] at hst
      have hh : (parseArrayLine line).isSome = true := by rw [hp]; rfl
      rw [wfAux_cons_header hh] at hwf
      rw [Bool.and_eq_true] at hwf
      refine ih (acc ++ cur.toList) (some (initStatus n stw lv)) false false
        hwf.2 ?_ ?_ st hst
      · intro a ha
        rw [List.mem_append] at ha
        cases ha with
        | inl h => exact hacc a h
        | inr h =>
          cases cur with
          | none => simp at h
          | some c =>
            simp at h
            rw [h]
            have hss : ss = true := by simpa using hwf.1
            have hinv := hcur c rfl
            rw [hss] at hinv
            exact recInv_flush hinv
      · intro c hc
        injection hc with hc'
        rw [← hc']
        refine ⟨rfl, ?_, ?_⟩
        · intro hx
          cases hx
        · intro _ hx
          cases hx
    | none =>
      have hh : (parseArrayLine line).isSome = false := by rw [hp]; rfl
      cases cur with
      | none =>
        rw [parseGo_cons_skip hp rest acc] at hst
        rw [show (none : Option Status).isSome = false from rfl] at hwf
        rw [wfAux_cons_notrec hh] at hwf
        exact ih acc none ss sr hwf hacc (fun c hc => by cases hc) st hst
      | some c =>
        rw [parseGo_cons_body hp rest acc c] at hst
        rw [show (some c).isSome = true from rfl] at hwf
        rw [wfAux_cons_inrec hh] at hwf
        rw [Bool.and_eq_true] at hwf
        refine ih acc (some (applyLine c line)) _ _ hwf.2 hacc ?_ st hst
        intro c' hc'
        injection hc' with hc''
        rw [← hc'']
        apply recInv_step (hcur c rfl)
        intro hsome
        rw [if_pos hsome] at hwf
        simpa using hwf.1

/-- Claim C2: on a well-formed document, every returned record is
unhealthy exactly when its device bitmap contains a missing-slot marker
or it is rebuilding. -/
theorem claim_C2 (doc : List Str) (hwf : wellFormed doc = true) :
    ∀ st ∈ parseMdstatReader doc,
      (st.Healthy = false ↔ ('_' ∈ st.DeviceList ∨ st.Rebuilding = true)) := by
  intro st hst
  refine parseGo_healthy doc [] none false false hwf ?_ ?_ st hst
  · intro a ha
    exact absurd ha (List.not_mem_nil a)
  · intro c hc
    cases hc

/-- Witness for C2 at the record parsed from a concrete well-formed
document. -/
theorem claim_C2_witness :
    st0.Healthy = false ↔ ('_' ∈ st0.DeviceList ∨ st0.Rebuilding = true) :=
  claim_C2 cdocWF (by decide) st0 (by decide)

/-- On a line with no slot match, `applyLine` is the recovery update
alone. -/
lemma applyLine_of_no_slot {line : Str} (h : matchStatusLine line = none)
    (c : Status) :
    applyLine c line = (match matchRecoveryLine line with
      | some p => { c with Rebuilding := true, Progress := p, Healthy := false }
      | none => c) := by
  cases hR : matchRecoveryLine line <;>
    simp [applyLine, applyStatusLine, applyRecoveryLine, h, hR]

/-- Folding slot-free lines preserves name, device counts, device list,
and an unhealthy flag. -/
lemma foldl_no_slot (seg : List Str) : ∀ (c : Status),
    (∀ l ∈ seg, matchStatusLine l = none) →
    (seg.foldl applyLine c).Name = c.Name ∧
    (seg.foldl applyLine c).Devices = c.Devices ∧
    (seg.foldl applyLine c).Active = c.Active ∧
    (seg.foldl applyLine c).DeviceList = c.DeviceList ∧
    (c.Healthy = false → (seg.foldl applyLine c).Healthy = false) := by
  induction seg with
  | nil =>
    intro c _
    exact ⟨rfl, rfl, rfl, rfl, fun h => h⟩
  | cons l rest ih =>
    intro c hs
    rw [List.foldl_cons]
    have h1 := hs l (List.mem_cons_self l rest)
    have IH := ih (applyLine c l) (fun x hx => hs x (List.mem_cons_of_mem l hx))
    have hstep := applyLine_of_no_slot h1 c
    cases hR : matchRecoveryLine l with
    | none =>
      rw [hR] at hstep
      rw [hstep] at IH
      rw [hstep]
      exact IH
    | some p =>
      rw [hR] at hstep
      rw [hstep] at IH
      rw [hstep]
      exact ⟨IH.1, IH.2.1, IH.2.2.1, IH.2.2.2.1, fun _ => IH.2.2.2.2 rfl⟩

/-- Folding lines that match neither pattern is the identity. -/
lemma foldl_inert (seg : List Str) : ∀ (c : Status),
    (∀ l ∈ seg, matchStatusLine l = none ∧ matchRecoveryLine l = none) →
    seg.foldl applyLine c = c := by
  induction seg with
  | nil => intro c _; rfl
  | cons l rest ih =>
    intro c hs
    rw [List.foldl_cons]
    have h1 := hs l (List.mem_cons_self l rest)
    have hstep := applyLine_of_no_slot h1.1 c
    rw [h1.2] at hstep
    rw [hstep]
    exact ih c (fun x hx => hs x (List.mem_cons_of_mem l hx))

/-- The parser on an in-progress record over header-free lines is the
line fold. -/
lemma parseGo_in_record (seg : List Str) : ∀ (acc : List Status) (c : Status),
    (∀ l ∈ seg, parseArrayLine l = none) →
    parseGo seg acc (some c) = acc ++ [seg.foldl applyLine c] := by
  induction seg with
  | nil => intro acc c _; simp [parseGo]
  | cons l rest ih =>
    intro acc c hs
    rw [parseGo_cons_body (hs l (List.mem_cons_self l rest)) rest acc c]
    rw [List.foldl_cons]
    exact ih acc (applyLine c l) (fun x hx => hs x (List.mem_cons_of_mem l hx))

/-- Counterexample to C10: a record with a recovery line but no slot
line is reported with a rebuilding reason, not a degraded one. -/
theorem claim_C10_counterexample :
    ((cdoc10.drop 1).all (fun l =>
      (matchStatusLine l).isNone && (parseArrayLine l).isNone)) = true ∧
    Check (parseMdstatReader cdoc10) [lit "md0"] =
      (false, lit "md0 rebuilding: 5.0%") ∧
    lit "md0 rebuilding: 5.0%" ≠ lit "md0 degraded: " := by
  refine ⟨by decide, by decide, by decide⟩

/-- Claim C10 (amended): a record whose segment has no slot-status line
keeps its zero values — unhealthy, no devices, empty device list — and
`Check` on it reports unhealthy: with the degraded reason over the
empty device list when no recovery line followed the header, or with
the rebuilding reason when one did. -/
theorem claim_C10 (h : Str) (n stw lv : Str) (seg : List Str)
    (hh : parseArrayLine h = some (n, stw, lv))
    (hseg : ∀ l ∈ seg, parseArrayLine l = none ∧ matchStatusLine l = none) :
    parseMdstatReader (h :: seg) =
      [seg.foldl applyLine (initStatus n stw lv)] ∧
    (seg.foldl applyLine (initStatus n stw lv)).Name = n ∧
    (seg.foldl applyLine (initStatus n stw lv)).Healthy = false ∧
    (seg.foldl applyLine (initStatus n stw lv)).Devices = 0 ∧
    (seg.foldl applyLine (initStatus n stw lv)).Active = 0 ∧
    (seg.foldl applyLine (initStatus n stw lv)).DeviceList = [] ∧
    (Check (parseMdstatReader (h :: seg)) [n]).1 = false ∧
    ((∀ l ∈ seg, matchRecoveryLine l = none) →
      (Check (parseMdstatReader (h :: seg)) [n]).2 = n ++ lit " degraded: ") ∧
    ((seg.foldl applyLine (initStatus n stw lv)).Rebuilding = true →
      (Check (parseMdstatReader (h :: seg)) [n]).2 =
        n ++ lit " rebuilding: " ++
          (seg.foldl applyLine (initStatus n stw lv)).Progress) := by
  have hparse : parseMdstatReader (h :: seg) =
      [seg.foldl applyLine (initStatus n stw lv)] := by
    unfold parseMdstatReader
    rw [parseGo_cons_header hh seg [] none]
    exact parseGo_in_record seg [] (initStatus n stw lv)
      (fun l hl => (hseg l hl).1)
  have hfields := foldl_no_slot seg (initStatus n stw lv)
    (fun l hl => (hseg l hl).2)
  have hName : (seg.foldl applyLine (initStatus n stw lv)).Name = n := hfields.1
  have hHealthy : (seg.foldl applyLine (initStatus n stw lv)).Healthy = false :=
    hfields.2.2.2.2 rfl
  have hCheck : Check [seg.foldl applyLine (initStatus n stw lv)] [n] =
      (false, if (seg.foldl applyLine (initStatus n stw lv)).Rebuilding
        then rebuildR (seg.foldl applyLine (initStatus n stw lv))
        else degradedR (seg.foldl applyLine (initStatus n stw lv))) := by
    have hc1 : checkArray n [seg.foldl applyLine (initStatus n stw lv)] false =
        some (if (seg.foldl applyLine (initStatus n stw lv)).Rebuilding
          then rebuildR (seg.foldl applyLine (initStatus n stw lv))
          else degradedR (seg.foldl applyLine (initStatus n stw lv))) := by
      cases hr : (seg.foldl applyLine (initStatus n stw lv)).Rebuilding <;>
        simp [checkArray, hName, hHealthy, hr]
    simp [Check, checkAll, hc1]
  refine ⟨hparse, hName, hHealthy, hfields.2.1, hfields.2.2.1,
    hfields.2.2.2.1, ?_, ?_, ?_⟩
  · rw [hparse, hCheck]
  · intro hnorec
    have hid : seg.foldl applyLine (initStatus n stw lv) = initStatus n stw lv :=
      foldl_inert seg (initStatus n stw lv)
        (fun l hl => ⟨(hseg l hl).2, hnorec l hl⟩)
    rw [hparse, hCheck]
    rw [hid]
    simp [degradedR, initStatus]
  · intro hreb
    rw [hparse, hCheck, if_pos hreb]
    unfold rebuildR
    rw [hName]

/-- Witness for the amended C10: a header followed only by an inert
line yields the degraded reason over the empty device list. -/
theorem claim_C10_witness :
    (Check (parseMdstatReader [hline10, lit "      bitmap: 2/30 pages"])
      [lit "md0"]).2 = lit "md0" ++ lit " degraded: " := by
  have h := claim_C10 hline10 (lit "md0") (lit "active") (lit "raid1")
    [lit "      bitmap: 2/30 pages"] (by decide) (by decide)
  exact h.2.2.2.2.2.2.2.1 (by decide)

end Sidecars
